import Mathlib

/-!
# hmmc: clock-driven Verilator harnesses

A shallow embedding of the two C++ harnesses of `hmmc/data/cpp`:

* `adder.cpp`            (`adderLoopBody`, `adderLoop`, `adderHarness`, `adderMain`)
* `template_simple.cpp`  (`dump_vcd`, `clock_tick`, `runMainCode`, `templateMain`)

The harness state is passed explicitly (`Sim`).  Every call the harness makes
into the simulator runtime is appended to a log (`Sim.log`), so that orderings
and counts of calls can be stated about a run.
-/

namespace Hmmc

/-! ## Data model -/

/-- One call made by a harness into the simulator runtime. -/
inductive Event where
  /-- The call `Verilated::mkdir` creating the logs directory. -/
  | mkdir
  /-- The call `Verilated::commandArgs(argc, argv)`. -/
  | commandArgs
  /-- The call `contextp->traceEverOn(true)`. -/
  | traceEverOn
  /-- The call `top->trace(tfp, levels)`: the recorder is attached to the model. -/
  | trace (levels : Nat)
  /-- The call `tfp->open(file)`. -/
  | openTrace
  /-- The assignment `top->a = v`. -/
  | setA (v : Nat)
  /-- The assignment `top->b = v`. -/
  | setB (v : Nat)
  /-- The call `contextp->timeInc(d)`. -/
  | timeInc (d : Nat)
  /-- The assignment `top->sys_clk = v`. -/
  | setClk (v : Nat)
  /-- The call `top->eval()`, with the simulated time and the clock level it ran at. -/
  | eval (time : Nat) (clk : Nat)
  /-- The call `tfp->dump(contextp->time())`, with the time passed. -/
  | dump (time : Nat)
  /-- The call `top->final()`. -/
  | final
  /-- The call `tfp->close()`. -/
  | close
  deriving DecidableEq, Repr

/-- The `top` object as the harness sees it: the ports it names (`a`, `b`,
`sys_clk`, `c`) and the internal state `st` of the compiled design. -/
structure Top (σ : Type) where
  a : Nat
  b : Nat
  sys_clk : Nat
  c : Nat
  st : σ

/-- Modelled from the spec: the class `Vtop` (`Vtop.h`, produced by the
simulator from the design) is not among the sources.  Following the data model
of the spec, a simulation model exposes assignable input ports, readable output
ports, an evaluate operation that recomputes the outputs (and the internal
state) from the current inputs, and a finalize operation run once at teardown.
`eval` and `final` also receive the simulated time of the context. -/
structure Vtop (σ : Type) where
  /-- The object right after its construction by `new Vtop`. -/
  init : Top σ
  /-- The method `eval()`: the new value of output `c` and the new internal state. -/
  eval : Nat → Top σ → Nat × σ
  /-- The method `final()`: the new internal state. -/
  final : Nat → Top σ → σ

/-- State of a harness run.  Modelled from the spec: `VerilatedContext`
(`verilated.h`) is not among the sources; the spec describes its time as a
monotonically increasing time counter, here a natural number.  `log` lists the
calls made so far, oldest first. -/
structure Sim (σ : Type) where
  time : Nat
  top : Top σ
  log : List Event

variable {σ : Type}

/-! ## Primitive statements of the harnesses -/

/-- State after `new VerilatedContext` and `new Vtop`, the context time being `t0`. -/
def construct (m : Vtop σ) (t0 : Nat) : Sim σ :=
  { time := t0, top := m.init, log := [] }

/-- Append a call that changes nothing the harness reads back. -/
def call (e : Event) (s : Sim σ) : Sim σ :=
  { s with log := s.log ++ [e] }

/-- The statement `contextp->timeInc(d);`. -/
def timeInc (d : Nat) (s : Sim σ) : Sim σ :=
  { s with time := s.time + d, log := s.log ++ [Event.timeInc d] }

/-- The statement `top->a = v;`. -/
def setA (v : Nat) (s : Sim σ) : Sim σ :=
  { s with top := { s.top with a := v }, log := s.log ++ [Event.setA v] }

/-- The statement `top->b = v;`. -/
def setB (v : Nat) (s : Sim σ) : Sim σ :=
  { s with top := { s.top with b := v }, log := s.log ++ [Event.setB v] }

/-- The statement `top->sys_clk = v;`. -/
def setClk (v : Nat) (s : Sim σ) : Sim σ :=
  { s with top := { s.top with sys_clk := v }, log := s.log ++ [Event.setClk v] }

/-- The statement `top->eval();`. -/
def eval (m : Vtop σ) (s : Sim σ) : Sim σ :=
  { s with
    top := { s.top with c := (m.eval s.time s.top).1, st := (m.eval s.time s.top).2 },
    log := s.log ++ [Event.eval s.time s.top.sys_clk] }

/-- The statement `top->final();`. -/
def final (m : Vtop σ) (s : Sim σ) : Sim σ :=
  { s with
    top := { s.top with st := m.final s.time s.top },
    log := s.log ++ [Event.final] }

/-- The statement `tfp->dump(contextp->time());`. -/
def tfpDump (s : Sim σ) : Sim σ :=
  call (Event.dump s.time) s

/-- Lines shared by both `main`s up to the creation of the model:
`mkdir`, `commandArgs`, construction, `traceEverOn(true)`. -/
def startup (m : Vtop σ) (t0 : Nat) : Sim σ :=
  call Event.traceEverOn (call Event.commandArgs (call Event.mkdir (construct m t0)))

/-- The block `#if VM_TRACE_VCD ... top->trace(tfp, 99); tfp->open(...); #endif`. -/
def traceSetup (tr : Bool) (s : Sim σ) : Sim σ :=
  if tr then call Event.openTrace (call (Event.trace 99) s) else s

/-- The block `#if VM_TRACE_VCD  tfp->close();  #endif`. -/
def traceClose (tr : Bool) (s : Sim σ) : Sim σ :=
  if tr then call Event.close s else s

/-! ## adder.cpp -/

/-- Body of the clocking loop of `adder.cpp` (lines 36-48); `tr` is `VM_TRACE_VCD`. -/
def adderLoopBody (tr : Bool) (m : Vtop σ) (s : Sim σ) : Sim σ :=
  let s := timeInc 5 s
  let s := setClk 0 s
  let s := eval m s
  let s := if tr then tfpDump s else s
  let s := timeInc 5 s
  let s := setClk 1 s
  let s := eval m s
  if tr then tfpDump s else s

/-- The loop `for(int i=0; i<=1; i++)` of `adder.cpp`, entered with counter `i`. -/
def adderLoop (tr : Bool) (m : Vtop σ) (i : Nat) (s : Sim σ) : Sim σ :=
  if i ≤ 1 then adderLoop tr m (i + 1) (adderLoopBody tr m s) else s
termination_by 2 - i
decreasing_by omega

/-- The comparison `c == expected ? 0 : 1` of the return statement. -/
def returnCode (c expected : Nat) : Int :=
  if c = expected then 0 else 1

/-- The expression `(0xFFFFFFFF & (A + B))` of the return statement, the sum
being taken in 32-bit unsigned arithmetic. -/
def expectedOf (A B : Nat) : Nat :=
  0xFFFFFFFF &&& ((A + B) % 2 ^ 32)

/-- The state in which `adder.cpp` reaches its loop, for driven values `A`, `B`. -/
def adderBeforeLoop (A B : Nat) (tr : Bool) (m : Vtop σ) (t0 : Nat) : Sim σ :=
  setB B (setA A (traceSetup tr (startup m t0)))

/-- The state in which `adder.cpp` leaves its loop. -/
def adderAfterLoop (A B : Nat) (tr : Bool) (m : Vtop σ) (t0 : Nat) : Sim σ :=
  adderLoop tr m 0 (adderBeforeLoop A B tr m t0)

/-- The function `main` of `adder.cpp` with its literals as parameters: the
values `A` and `B` driven on `a` and `b`, and the value `E` that `c` is compared
with.  Returns the exit code and the final state. -/
def adderHarness (A B E : Nat) (tr : Bool) (m : Vtop σ) (t0 : Nat) : Int × Sim σ :=
  let s := adderAfterLoop A B tr m t0
  let s := final m s
  let s := traceClose tr s
  (returnCode s.top.c E, s)

/-- The value `adder.cpp` compares `c` with:
`(0xFFFFFFFF & (0xdeadbeef + 0x8badf00d))`. -/
def adderExpected : Nat :=
  expectedOf 0xdeadbeef 0x8badf00d

/-- The function `main` of `adder.cpp`. -/
def adderMain (tr : Bool) (m : Vtop σ) (t0 : Nat) : Int × Sim σ :=
  adderHarness 0xdeadbeef 0x8badf00d adderExpected tr m t0

/-! ## template_simple.cpp -/

/-- The macro `dump_vcd()`: `tfp->dump(contextp->time())` when `VM_TRACE_VCD`
is non-zero, nothing otherwise. -/
def dump_vcd (tr : Bool) (s : Sim σ) : Sim σ :=
  if tr then tfpDump s else s

/-- The macro `clock_tick(ctx, t)` (lines 25-32). -/
def clock_tick (tr : Bool) (m : Vtop σ) (s : Sim σ) : Sim σ :=
  let s := dump_vcd tr s
  let s := timeInc 5 s
  let s := setClk 0 s
  let s := eval m s
  let s := dump_vcd tr s
  let s := timeInc 5 s
  let s := setClk 1 s
  eval m s

/-- A statement of the text substituted for the placeholder `main_code`: an
assignment to an input port or a use of `clock_tick(contextp, top)`. -/
inductive MainStmt where
  | setA (v : Nat)
  | setB (v : Nat)
  | clockTick
  deriving DecidableEq, Repr

/-- Run the statements substituted for `main_code`, in order. -/
def runMainCode (tr : Bool) (m : Vtop σ) : List MainStmt → Sim σ → Sim σ
  | [], s => s
  | MainStmt.setA v :: rest, s => runMainCode tr m rest (setA v s)
  | MainStmt.setB v :: rest, s => runMainCode tr m rest (setB v s)
  | MainStmt.clockTick :: rest, s => runMainCode tr m rest (clock_tick tr m s)

/-- Number of clock ticks a `main_code` performs. -/
def nTicks (code : List MainStmt) : Nat :=
  code.count MainStmt.clockTick

/-- The function `main` of `template_simple.cpp`; `main_code` stands for the
placeholder of that name and `return_code`, a function of the final `top`, for
the placeholder `return_code`.  Returns the
exit code and the final state. -/
def templateMain (tr : Bool) (m : Vtop σ) (t0 : Nat) (main_code : List MainStmt)
    (return_code : Top σ → Int) : Int × Sim σ :=
  let s := traceSetup tr (startup m t0)
  let s := runMainCode tr m main_code s
  let s := clock_tick tr m s
  let s := final m s
  let s := traceClose tr s
  (return_code s.top, s)

/-! ## Reading a log -/

/-- Is the call an evaluation of the model? -/
def isEval : Event → Bool
  | Event.eval _ _ => true
  | _ => false

/-- Is the call a sample of the trace recorder? -/
def isDump : Event → Bool
  | Event.dump _ => true
  | _ => false

/-- Number of model evaluations in a log. -/
def evalCount (l : List Event) : Nat :=
  l.countP isEval

/-- Number of trace samples in a log. -/
def dumpCount (l : List Event) : Nat :=
  l.countP isDump

/-- Number of completed clock ticks in a log, read from phase `p`.  A clock
tick is one low-then-high toggle of the clock input with an evaluation after
each phase: the clock is driven low (phase 0 to 1), the model is evaluated with
the clock low (1 to 2), the clock is driven high (2 to 3), the model is
evaluated with the clock high (3 to 0, one tick counted).  Other calls do not
change the phase. -/
def tickCountFrom : Nat → List Event → Nat
  | _, [] => 0
  | 0, Event.setClk 0 :: rest => tickCountFrom 1 rest
  | 1, Event.eval _ 0 :: rest => tickCountFrom 2 rest
  | 2, Event.setClk 1 :: rest => tickCountFrom 3 rest
  | 3, Event.eval _ 1 :: rest => 1 + tickCountFrom 0 rest
  | p, _ :: rest => tickCountFrom p rest

/-- Number of completed clock ticks in a log. -/
def tickCount (l : List Event) : Nat :=
  tickCountFrom 0 l

/-- The calls of the startup lines shared by both harnesses. -/
def startupEvents : List Event :=
  [Event.mkdir, Event.commandArgs, Event.traceEverOn]

/-- The calls attaching and opening the recorder, when tracing is enabled. -/
def traceSetupEvents (tr : Bool) : List Event :=
  if tr then [Event.trace 99, Event.openTrace] else []

/-- The eight steps of a clock tick of the template started at time `t`, as
the spec lists them: sample (if tracing), advance time by 5, clock low,
evaluate, sample (if tracing), advance time by 5, clock high, evaluate. -/
def tickEvents (tr : Bool) (t : Nat) : List Event :=
  (if tr then [Event.dump t] else [])
    ++ [Event.timeInc 5, Event.setClk 0, Event.eval (t + 5) 0]
    ++ (if tr then [Event.dump (t + 5)] else [])
    ++ [Event.timeInc 5, Event.setClk 1, Event.eval (t + 10) 1]

/-- The calls of one iteration of the loop of `adder.cpp` started at time `t`. -/
def adderBodyEvents (tr : Bool) (t : Nat) : List Event :=
  [Event.timeInc 5, Event.setClk 0, Event.eval (t + 5) 0]
    ++ (if tr then [Event.dump (t + 5)] else [])
    ++ [Event.timeInc 5, Event.setClk 1, Event.eval (t + 10) 1]
    ++ (if tr then [Event.dump (t + 10)] else [])

/-- The calls of a `main_code` started at time `t`. -/
def codeEvents (tr : Bool) : Nat → List MainStmt → List Event
  | _, [] => []
  | t, MainStmt.setA v :: rest => Event.setA v :: codeEvents tr t rest
  | t, MainStmt.setB v :: rest => Event.setB v :: codeEvents tr t rest
  | t, MainStmt.clockTick :: rest => tickEvents tr t ++ codeEvents tr (t + 10) rest

/-- The calls closing the recorder, when tracing is enabled. -/
def traceCloseEvents (tr : Bool) : List Event :=
  if tr then [Event.close] else []

/-- The state transition of a clock tick without tracing, in the words of the
spec: time advances by 5, the clock is set to 0, the model is evaluated, time
advances by 5, the clock is set to 1, the model is evaluated. -/
def specTick (m : Vtop σ) (s : Sim σ) : Sim σ :=
  eval m (setClk 1 (timeInc 5 (eval m (setClk 0 (timeInc 5 s)))))

/-- A model whose output `c` always evaluates to `v`, without internal state. -/
def stubModel (v : Nat) : Vtop Unit :=
  { init := { a := 0, b := 0, sys_clk := 0, c := 0, st := () },
    eval := fun _ _ => (v, ()),
    final := fun _ _ => () }

/-- A combinational 32-bit adder: every evaluation sets `c` to `a + b`
truncated to 32 bits. -/
def adderModel : Vtop Unit :=
  { init := { a := 0, b := 0, sys_clk := 0, c := 0, st := () },
    eval := fun _ top => ((top.a + top.b) % 2 ^ 32, ()),
    final := fun _ _ => () }

/-- Is the call one a clocking phase makes: a port assignment, a time advance,
an evaluation or a sample? -/
def isDriveCall : Event → Bool
  | Event.setA _ => true
  | Event.setB _ => true
  | Event.timeInc _ => true
  | Event.setClk _ => true
  | Event.eval _ _ => true
  | Event.dump _ => true
  | _ => false

/-- The calls made before the first `final()`. -/
def beforeFinal (l : List Event) : List Event :=
  l.takeWhile (fun e => e != Event.final)

/-- The calls made after the first `final()`. -/
def afterFinal (l : List Event) : List Event :=
  (l.dropWhile (fun e => e != Event.final)).tail

/-- Is the next call among evaluations, samples, `final()` and `close()` a
sample taken at time `t`? -/
def sampledBeforeNext (t : Nat) : List Event → Bool
  | [] => false
  | Event.dump u :: _ => u == t
  | Event.eval _ _ :: _ => false
  | Event.final :: _ => false
  | Event.close :: _ => false
  | _ :: rest => sampledBeforeNext t rest

/-- Is every evaluation of the log followed by a sample taken at the time of
that evaluation, before the next evaluation, `final()` or `close()`? -/
def everyEvalSampled : List Event → Bool
  | [] => true
  | Event.eval t _ :: rest => sampledBeforeNext t rest && everyEvalSampled rest
  | _ :: rest => everyEvalSampled rest

/-- The log of a run of `template_simple.cpp`. -/
def templateLog (tr : Bool) (m : Vtop σ) (t0 : Nat) (main_code : List MainStmt)
    (return_code : Top σ → Int) : List Event :=
  (templateMain tr m t0 main_code return_code).2.log

/-- The log of a run of `adder.cpp`. -/
def adderLog (tr : Bool) (m : Vtop σ) (t0 : Nat) : List Event :=
  (adderMain tr m t0).2.log

/-! ## Basic facts -/

theorem adderLoop_zero (tr : Bool) (m : Vtop σ) (s : Sim σ) :
    adderLoop tr m 0 s = adderLoopBody tr m (adderLoopBody tr m s) := by
  rw [adderLoop]; simp only [Nat.zero_le, if_true]
  rw [adderLoop]; simp only [Nat.zero_add, le_refl, if_true]
  rw [adderLoop]; simp

theorem expectedOf_eq (A B : Nat) : expectedOf A B = (A + B) % 2 ^ 32 := by
  unfold expectedOf
  have h : (0xFFFFFFFF : Nat) = 2 ^ 32 - 1 := by norm_num
  rw [h, Nat.and_comm, Nat.and_pow_two_sub_one_eq_mod, Nat.mod_mod]

theorem clock_tick_log (tr : Bool) (m : Vtop σ) (s : Sim σ) :
    (clock_tick tr m s).log = s.log ++ tickEvents tr s.time := by
  cases tr <;>
    simp [clock_tick, dump_vcd, tfpDump, call, timeInc, setClk, eval, tickEvents, Nat.add_assoc]

theorem clock_tick_time (tr : Bool) (m : Vtop σ) (s : Sim σ) :
    (clock_tick tr m s).time = s.time + 10 := by
  cases tr <;>
    simp [clock_tick, dump_vcd, tfpDump, call, timeInc, setClk, eval, Nat.add_assoc]

theorem clock_tick_top (tr : Bool) (m : Vtop σ) (s : Sim σ) :
    (clock_tick tr m s).top = (specTick m s).top := by
  cases tr <;>
    simp [clock_tick, specTick, dump_vcd, tfpDump, call, timeInc, setClk, eval]

theorem adderLoopBody_log (tr : Bool) (m : Vtop σ) (s : Sim σ) :
    (adderLoopBody tr m s).log = s.log ++ adderBodyEvents tr s.time := by
  cases tr <;>
    simp [adderLoopBody, tfpDump, call, timeInc, setClk, eval, adderBodyEvents, Nat.add_assoc]

theorem adderLoopBody_time (tr : Bool) (m : Vtop σ) (s : Sim σ) :
    (adderLoopBody tr m s).time = s.time + 10 := by
  cases tr <;>
    simp [adderLoopBody, tfpDump, call, timeInc, setClk, eval, Nat.add_assoc]

theorem adderLoopBody_top (tr : Bool) (m : Vtop σ) (s : Sim σ) :
    (adderLoopBody tr m s).top = (specTick m s).top := by
  cases tr <;>
    simp [adderLoopBody, specTick, tfpDump, call, timeInc, setClk, eval]

theorem specTick_time (m : Vtop σ) (s : Sim σ) : (specTick m s).time = s.time + 10 := by
  simp [specTick, timeInc, setClk, eval, Nat.add_assoc]

theorem runMainCode_time (tr : Bool) (m : Vtop σ) (code : List MainStmt) (s : Sim σ) :
    (runMainCode tr m code s).time = s.time + 10 * nTicks code := by
  induction code generalizing s with
  | nil => simp [runMainCode, nTicks]
  | cons st rest ih =>
    cases st with
    | setA v => simp [runMainCode, ih, nTicks, setA] at *
    | setB v => simp [runMainCode, ih, nTicks, setB] at *
    | clockTick =>
      simp only [runMainCode, ih, clock_tick_time, nTicks, List.count_cons_self] at *
      omega

theorem runMainCode_log (tr : Bool) (m : Vtop σ) (code : List MainStmt) (s : Sim σ) :
    (runMainCode tr m code s).log = s.log ++ codeEvents tr s.time code := by
  induction code generalizing s with
  | nil => simp [runMainCode, codeEvents]
  | cons st rest ih =>
    cases st with
    | setA v => simp [runMainCode, ih, codeEvents, setA]
    | setB v => simp [runMainCode, ih, codeEvents, setB]
    | clockTick =>
      simp [runMainCode, ih, codeEvents, clock_tick_log, clock_tick_time]

theorem startup_log (m : Vtop σ) (t0 : Nat) : (startup m t0).log = startupEvents := by
  simp [startup, call, construct, startupEvents]

theorem startup_time (m : Vtop σ) (t0 : Nat) : (startup m t0).time = t0 := by
  simp [startup, call, construct]

theorem traceSetup_log (tr : Bool) (s : Sim σ) :
    (traceSetup tr s).log = s.log ++ traceSetupEvents tr := by
  cases tr <;> simp [traceSetup, call, traceSetupEvents]

theorem traceSetup_time (tr : Bool) (s : Sim σ) : (traceSetup tr s).time = s.time := by
  cases tr <;> simp [traceSetup, call]

theorem traceClose_log (tr : Bool) (s : Sim σ) :
    (traceClose tr s).log = s.log ++ traceCloseEvents tr := by
  cases tr <;> simp [traceClose, call, traceCloseEvents]

theorem traceClose_top (tr : Bool) (s : Sim σ) : (traceClose tr s).top = s.top := by
  cases tr <;> simp [traceClose, call]

/-- The log of a run of the template harness. -/
theorem templateMain_log (tr : Bool) (m : Vtop σ) (t0 : Nat) (code : List MainStmt)
    (ret : Top σ → Int) :
    (templateMain tr m t0 code ret).2.log
      = (startupEvents ++ traceSetupEvents tr ++ codeEvents tr t0 code
          ++ tickEvents tr (t0 + 10 * nTicks code))
        ++ Event.final :: traceCloseEvents tr := by
  simp [templateMain, traceClose_log, final, clock_tick_log, runMainCode_log, runMainCode_time,
    traceSetup_log, traceSetup_time, startup_log, startup_time]

/-- The log of the adder harness when it leaves its loop. -/
theorem adderAfterLoop_log (A B : Nat) (tr : Bool) (m : Vtop σ) (t0 : Nat) :
    (adderAfterLoop A B tr m t0).log
      = startupEvents ++ traceSetupEvents tr ++ [Event.setA A, Event.setB B]
          ++ adderBodyEvents tr t0 ++ adderBodyEvents tr (t0 + 10) := by
  simp [adderAfterLoop, adderLoop_zero, adderLoopBody_log, adderLoopBody_time, adderBeforeLoop,
    setA, setB, traceSetup_log, traceSetup_time, startup_log, startup_time]

/-- The log of a run of the adder harness. -/
theorem adderHarness_log (A B E : Nat) (tr : Bool) (m : Vtop σ) (t0 : Nat) :
    (adderHarness A B E tr m t0).2.log
      = (startupEvents ++ traceSetupEvents tr ++ [Event.setA A, Event.setB B]
          ++ adderBodyEvents tr t0 ++ adderBodyEvents tr (t0 + 10))
        ++ Event.final :: traceCloseEvents tr := by
  simp [adderHarness, traceClose_log, final, adderAfterLoop_log]

theorem specTick_a (m : Vtop σ) (s : Sim σ) : (specTick m s).top.a = s.top.a := by
  simp [specTick, timeInc, setClk, eval]

theorem specTick_b (m : Vtop σ) (s : Sim σ) : (specTick m s).top.b = s.top.b := by
  simp [specTick, timeInc, setClk, eval]

theorem specTick_clk (m : Vtop σ) (s : Sim σ) : (specTick m s).top.sys_clk = 1 := by
  simp [specTick, timeInc, setClk, eval]

theorem specTick_c (m : Vtop σ) (s : Sim σ)
    (hadd : ∀ t (top : Top σ), top.sys_clk = 1 → (m.eval t top).1 = (top.a + top.b) % 2 ^ 32) :
    (specTick m s).top.c = (s.top.a + s.top.b) % 2 ^ 32 := by
  simp only [specTick, eval]
  rw [hadd _ _ (by simp [setClk])]
  simp [timeInc, setClk, eval]

theorem adderBeforeLoop_a (A B : Nat) (tr : Bool) (m : Vtop σ) (t0 : Nat) :
    (adderBeforeLoop A B tr m t0).top.a = A := by
  simp [adderBeforeLoop, setA, setB]

theorem adderBeforeLoop_b (A B : Nat) (tr : Bool) (m : Vtop σ) (t0 : Nat) :
    (adderBeforeLoop A B tr m t0).top.b = B := by
  simp [adderBeforeLoop, setA, setB]

theorem final_c (m : Vtop σ) (s : Sim σ) : (final m s).top.c = s.top.c := by
  simp [final]

theorem tickCount_adderBody (tr : Bool) (t : Nat) (rest : List Event) :
    tickCountFrom 0 (adderBodyEvents tr t ++ rest) = 1 + tickCountFrom 0 rest := by
  cases tr <;> rfl

theorem tickCount_tick (tr : Bool) (t : Nat) (rest : List Event) :
    tickCountFrom 0 (tickEvents tr t ++ rest) = 1 + tickCountFrom 0 rest := by
  cases tr <;> rfl

theorem tickCount_startup (tr : Bool) (rest : List Event) :
    tickCountFrom 0 (startupEvents ++ (traceSetupEvents tr ++ rest))
      = tickCountFrom 0 rest := by
  cases tr <;> rfl

theorem tickCount_code (tr : Bool) (t : Nat) (code : List MainStmt) (rest : List Event) :
    tickCountFrom 0 (codeEvents tr t code ++ rest) = nTicks code + tickCountFrom 0 rest := by
  induction code generalizing t with
  | nil => simp [codeEvents, nTicks]
  | cons st tl ih =>
    cases st with
    | setA v =>
      have h : tickCountFrom 0 (Event.setA v :: (codeEvents tr t tl ++ rest))
          = tickCountFrom 0 (codeEvents tr t tl ++ rest) := rfl
      simp [codeEvents, h, ih, nTicks] at *
    | setB v =>
      have h : tickCountFrom 0 (Event.setB v :: (codeEvents tr t tl ++ rest))
          = tickCountFrom 0 (codeEvents tr t tl ++ rest) := rfl
      simp [codeEvents, h, ih, nTicks] at *
    | clockTick =>
      simp only [codeEvents, List.append_assoc, tickCount_tick, ih, nTicks,
        List.count_cons_self] at *
      omega

theorem beforeFinal_append (pre post : List Event) (h : ∀ e ∈ pre, e ≠ Event.final) :
    beforeFinal (pre ++ Event.final :: post) = pre := by
  induction pre with
  | nil => simp [beforeFinal]
  | cons x xs ih =>
    have hx : x ≠ Event.final := h x (List.mem_cons_self x xs)
    have hxs : ∀ e ∈ xs, e ≠ Event.final := fun e he => h e (List.mem_cons_of_mem x he)
    have ih2 := ih hxs
    simp only [beforeFinal] at ih2 ⊢
    simp [List.takeWhile_cons, hx, ih2]

theorem afterFinal_append (pre post : List Event) (h : ∀ e ∈ pre, e ≠ Event.final) :
    afterFinal (pre ++ Event.final :: post) = post := by
  induction pre with
  | nil => simp [afterFinal]
  | cons x xs ih =>
    have hx : x ≠ Event.final := h x (List.mem_cons_self x xs)
    have hxs : ∀ e ∈ xs, e ≠ Event.final := fun e he => h e (List.mem_cons_of_mem x he)
    have ih2 := ih hxs
    simp only [afterFinal] at ih2 ⊢
    simp [List.dropWhile_cons, hx, ih2]

theorem isDriveCall_ne_final (e : Event) (h : isDriveCall e = true) : e ≠ Event.final := by
  intro he
  rw [he] at h
  simp [isDriveCall] at h

theorem tickEvents_drive (tr : Bool) (t : Nat) : ∀ e ∈ tickEvents tr t, isDriveCall e = true := by
  cases tr <;> simp [tickEvents, isDriveCall]

theorem adderBodyEvents_drive (tr : Bool) (t : Nat) :
    ∀ e ∈ adderBodyEvents tr t, isDriveCall e = true := by
  cases tr <;> simp [adderBodyEvents, isDriveCall]

theorem codeEvents_drive (tr : Bool) (t : Nat) (code : List MainStmt) :
    ∀ e ∈ codeEvents tr t code, isDriveCall e = true := by
  induction code generalizing t with
  | nil => simp [codeEvents]
  | cons st tl ih =>
    cases st with
    | setA v =>
      intro e he
      simp only [codeEvents, List.mem_cons] at he
      rcases he with rfl | he
      · rfl
      · exact ih t e he
    | setB v =>
      intro e he
      simp only [codeEvents, List.mem_cons] at he
      rcases he with rfl | he
      · rfl
      · exact ih t e he
    | clockTick =>
      intro e he
      simp only [codeEvents, List.mem_append] at he
      rcases he with he | he
      · exact tickEvents_drive tr t e he
      · exact ih (t + 10) e he

theorem startup_ne_final (tr : Bool) :
    ∀ e ∈ startupEvents ++ traceSetupEvents tr, e ≠ Event.final := by
  cases tr <;> simp [startupEvents, traceSetupEvents]

theorem evalCount_append (l₁ l₂ : List Event) :
    evalCount (l₁ ++ l₂) = evalCount l₁ + evalCount l₂ := by
  simp [evalCount]

theorem dumpCount_append (l₁ l₂ : List Event) :
    dumpCount (l₁ ++ l₂) = dumpCount l₁ + dumpCount l₂ := by
  simp [dumpCount]

theorem evalCount_tick (tr : Bool) (t : Nat) : evalCount (tickEvents tr t) = 2 := by
  cases tr <;> rfl

theorem dumpCount_tick (tr : Bool) (t : Nat) :
    dumpCount (tickEvents tr t) = if tr then 2 else 0 := by
  cases tr <;> rfl

theorem evalCount_adderBody (tr : Bool) (t : Nat) : evalCount (adderBodyEvents tr t) = 2 := by
  cases tr <;> rfl

theorem dumpCount_adderBody (tr : Bool) (t : Nat) :
    dumpCount (adderBodyEvents tr t) = if tr then 2 else 0 := by
  cases tr <;> rfl

theorem evalCount_startup : evalCount startupEvents = 0 := rfl

theorem evalCount_traceSetup (tr : Bool) : evalCount (traceSetupEvents tr) = 0 := by
  cases tr <;> rfl

theorem dumpCount_startup : dumpCount startupEvents = 0 := rfl

theorem dumpCount_traceSetup (tr : Bool) : dumpCount (traceSetupEvents tr) = 0 := by
  cases tr <;> rfl

theorem evalCount_code (tr : Bool) (t : Nat) (code : List MainStmt) :
    evalCount (codeEvents tr t code) = 2 * nTicks code := by
  induction code generalizing t with
  | nil => rfl
  | cons st tl ih =>
    cases st with
    | setA v =>
      have h : evalCount (Event.setA v :: codeEvents tr t tl) = evalCount (codeEvents tr t tl) := by
        simp [evalCount, isEval]
      simp [codeEvents, h, ih, nTicks]
    | setB v =>
      have h : evalCount (Event.setB v :: codeEvents tr t tl) = evalCount (codeEvents tr t tl) := by
        simp [evalCount, isEval]
      simp [codeEvents, h, ih, nTicks]
    | clockTick =>
      simp only [codeEvents, evalCount_append, evalCount_tick, ih, nTicks, List.count_cons_self]
      omega

theorem dumpCount_code (tr : Bool) (t : Nat) (code : List MainStmt) :
    dumpCount (codeEvents tr t code) = if tr then 2 * nTicks code else 0 := by
  induction code generalizing t with
  | nil => cases tr <;> rfl
  | cons st tl ih =>
    cases st with
    | setA v =>
      have h : dumpCount (Event.setA v :: codeEvents tr t tl) = dumpCount (codeEvents tr t tl) := by
        simp [dumpCount, isDump]
      simp [codeEvents, h, ih, nTicks]
    | setB v =>
      have h : dumpCount (Event.setB v :: codeEvents tr t tl) = dumpCount (codeEvents tr t tl) := by
        simp [dumpCount, isDump]
      simp [codeEvents, h, ih, nTicks]
    | clockTick =>
      simp only [codeEvents, dumpCount_append, dumpCount_tick, ih, nTicks, List.count_cons_self]
      cases tr <;> simp
      omega

/-- The calls of a template run made before `final()`. -/
theorem template_pre_ne_final (tr : Bool) (t0 : Nat) (code : List MainStmt) :
    ∀ e ∈ startupEvents ++ traceSetupEvents tr ++ codeEvents tr t0 code
        ++ tickEvents tr (t0 + 10 * nTicks code), e ≠ Event.final := by
  intro e he
  simp only [List.mem_append] at he
  rcases he with (he | he) | he
  · exact startup_ne_final tr e (List.mem_append.mpr he)
  · exact isDriveCall_ne_final e (codeEvents_drive tr t0 code e he)
  · exact isDriveCall_ne_final e (tickEvents_drive tr _ e he)

/-- The calls of an adder run made before `final()`. -/
theorem adder_pre_ne_final (A B : Nat) (tr : Bool) (t0 : Nat) :
    ∀ e ∈ startupEvents ++ traceSetupEvents tr ++ [Event.setA A, Event.setB B]
        ++ adderBodyEvents tr t0 ++ adderBodyEvents tr (t0 + 10), e ≠ Event.final := by
  intro e he
  simp only [List.mem_append] at he
  rcases he with (((he | he) | he) | he) | he
  · exact startup_ne_final tr e (List.mem_append.mpr (Or.inl he))
  · exact startup_ne_final tr e (List.mem_append.mpr (Or.inr he))
  · simp at he; rcases he with rfl | rfl <;> simp
  · exact isDriveCall_ne_final e (adderBodyEvents_drive tr _ e he)
  · exact isDriveCall_ne_final e (adderBodyEvents_drive tr _ e he)

theorem tickCount_template_pre (tr : Bool) (t0 : Nat) (code : List MainStmt) :
    tickCount (startupEvents ++ traceSetupEvents tr ++ codeEvents tr t0 code
        ++ tickEvents tr (t0 + 10 * nTicks code)) = nTicks code + 1 := by
  have h := tickCount_tick tr (t0 + 10 * nTicks code) []
  simp only [List.append_nil] at h
  simp only [tickCount, List.append_assoc, tickCount_startup, tickCount_code, h]
  rfl

theorem tickCount_adder_pre (A B : Nat) (tr : Bool) (t0 : Nat) :
    tickCount (startupEvents ++ traceSetupEvents tr ++ [Event.setA A, Event.setB B]
        ++ adderBodyEvents tr t0 ++ adderBodyEvents tr (t0 + 10)) = 2 := by
  cases tr <;> rfl

theorem tickCount_close (tr : Bool) :
    tickCountFrom 0 (Event.final :: traceCloseEvents tr) = 0 := by
  cases tr <;> rfl

theorem tickCount_templateLog (tr : Bool) (m : Vtop σ) (t0 : Nat) (code : List MainStmt)
    (ret : Top σ → Int) : tickCount (templateLog tr m t0 code ret) = nTicks code + 1 := by
  simp only [templateLog, templateMain_log, tickCount, List.append_assoc, tickCount_startup,
    tickCount_code, tickCount_tick, tickCount_close]

theorem tickCount_adderHarness (A B E : Nat) (tr : Bool) (m : Vtop σ) (t0 : Nat) :
    tickCount (adderHarness A B E tr m t0).2.log = 2 := by
  rw [adderHarness_log]
  cases tr <;> rfl

theorem dumpCount_templateLog (tr : Bool) (m : Vtop σ) (t0 : Nat) (code : List MainStmt)
    (ret : Top σ → Int) :
    dumpCount (templateLog tr m t0 code ret) = if tr then 2 * (nTicks code + 1) else 0 := by
  have hc : dumpCount (Event.final :: traceCloseEvents tr) = 0 := by cases tr <;> rfl
  simp only [templateLog, templateMain_log, dumpCount_append, dumpCount_startup,
    dumpCount_traceSetup, dumpCount_code, dumpCount_tick, hc]
  cases tr <;> simp
  omega

theorem dumpCount_adderHarness (A B E : Nat) (tr : Bool) (m : Vtop σ) (t0 : Nat) :
    dumpCount (adderHarness A B E tr m t0).2.log = if tr then 4 else 0 := by
  rw [adderHarness_log]
  cases tr <;> rfl

theorem sampledBeforeNext_code (u t : Nat) (code : List MainStmt) (rest : List Event) :
    sampledBeforeNext u (codeEvents true t code ++ rest)
      = if nTicks code = 0 then sampledBeforeNext u rest else (t == u) := by
  induction code with
  | nil => simp [codeEvents, nTicks]
  | cons st tl ih =>
    cases st with
    | setA v => simpa [codeEvents, sampledBeforeNext, nTicks] using ih
    | setB v => simpa [codeEvents, sampledBeforeNext, nTicks] using ih
    | clockTick => simp [codeEvents, tickEvents, sampledBeforeNext, nTicks]

theorem everyEvalSampled_tick (t : Nat) (rest : List Event) :
    everyEvalSampled (tickEvents true t ++ rest)
      = (sampledBeforeNext (t + 10) rest && everyEvalSampled rest) := by
  simp [tickEvents, everyEvalSampled, sampledBeforeNext]

theorem everyEvalSampled_code (t : Nat) (code : List MainStmt) (rest : List Event) :
    everyEvalSampled (codeEvents true t code ++ rest)
      = if nTicks code = 0 then everyEvalSampled rest
        else (sampledBeforeNext (t + 10 * nTicks code) rest && everyEvalSampled rest) := by
  induction code generalizing t with
  | nil => simp [codeEvents, nTicks]
  | cons st tl ih =>
    cases st with
    | setA v => simpa [codeEvents, everyEvalSampled, nTicks] using ih t
    | setB v => simpa [codeEvents, everyEvalSampled, nTicks] using ih t
    | clockTick =>
      simp only [codeEvents, List.append_assoc, everyEvalSampled_tick, sampledBeforeNext_code,
        ih (t + 10), nTicks, List.count_cons_self]
      by_cases h : List.count MainStmt.clockTick tl = 0
      · simp [h]
      · have e : t + 10 + 10 * List.count MainStmt.clockTick tl
            = t + 10 * (List.count MainStmt.clockTick tl + 1) := by omega
        simp [h, e]

theorem count_close_drive (l : List Event) (h : ∀ e ∈ l, isDriveCall e = true) :
    List.count Event.close l = 0 := by
  rw [List.count_eq_zero]
  intro hmem
  have := h _ hmem
  simp [isDriveCall] at this

theorem count_open_drive (l : List Event) (h : ∀ e ∈ l, isDriveCall e = true) :
    List.count Event.openTrace l = 0 := by
  rw [List.count_eq_zero]
  intro hmem
  have := h _ hmem
  simp [isDriveCall] at this

/-! ## The claims -/

/-- C1 (as amended): the expected value the adder harness compares output port
`c` against, `(0xFFFFFFFF & (0xdeadbeef + 0x8badf00d))` in 32-bit unsigned
arithmetic, equals `0x6a5baefc`. -/
theorem adderExpected_value : adderExpected = 0x6a5baefc := by
  decide

/-- C1 (as stated) fails: the expected value of the adder harness is not
`0x66687eec`. -/
theorem adderExpected_ne_spec_value : adderExpected ≠ 0x66687eec := by
  decide

/-- C2: for every final value of output port `c`, the adder harness returns
exit code exactly 0 when `c` equals the expected value and exactly 1 otherwise,
and no other code; this holds for whatever value `E` the harness is written to
compare `c` with, and every value `v` of `c` is the final one of some run. -/
theorem adder_exit_code (A B E : Nat) (tr : Bool) (m : Vtop σ) (t0 : Nat) :
    (adderMain tr m t0).1 = (if (adderMain tr m t0).2.top.c = adderExpected then 0 else 1)
    ∧ ((adderMain tr m t0).1 = 0 ∨ (adderMain tr m t0).1 = 1)
    ∧ (adderHarness A B E tr m t0).1
        = (if (adderHarness A B E tr m t0).2.top.c = E then 0 else 1)
    ∧ (∀ v : Nat, (adderHarness A B E tr (stubModel v) t0).2.top.c = v
        ∧ (adderHarness A B E tr (stubModel v) t0).1 = (if v = E then 0 else 1)) := by
  refine ⟨rfl, ?_, rfl, ?_⟩
  · simp only [adderMain, adderHarness, returnCode]
    split <;> simp
  · intro v
    have hc : (adderHarness A B E tr (stubModel v) t0).2.top.c = v := by
      simp [adderHarness, traceClose_top, final_c, adderAfterLoop, adderLoop_zero,
        adderLoopBody_top, specTick, eval, stubModel]
    refine ⟨hc, ?_⟩
    have h : (adderHarness A B E tr (stubModel v) t0).1
        = (if (adderHarness A B E tr (stubModel v) t0).2.top.c = E then 0 else 1) := rfl
    rw [h, hc]

/-- C3: for all 32-bit `A` and `B` and every adder model whose evaluation with
`sys_clk` high sets `c` to `(a + b) mod 2^32` (evaluation never writes the
input ports `a` and `b`), the adder harness run with `a = A`, `b = B` performs
exactly 2 clock ticks, after which `c = (A + B) mod 2^32`, and the harness
comparing `c` against `(A + B) mod 2^32` returns 0. -/
theorem adder_two_ticks_sum (A B : Nat) (_hA : A < 2 ^ 32) (_hB : B < 2 ^ 32) (tr : Bool)
    (m : Vtop σ) (t0 : Nat)
    (hadd : ∀ t (top : Top σ), top.sys_clk = 1 → (m.eval t top).1 = (top.a + top.b) % 2 ^ 32) :
    tickCount (adderAfterLoop A B tr m t0).log = 2
    ∧ tickCount (adderBeforeLoop A B tr m t0).log = 0
    ∧ (adderAfterLoop A B tr m t0).top.a = A
    ∧ (adderAfterLoop A B tr m t0).top.b = B
    ∧ (adderAfterLoop A B tr m t0).top.c = (A + B) % 2 ^ 32
    ∧ (adderHarness A B ((A + B) % 2 ^ 32) tr m t0).2.top.c = (A + B) % 2 ^ 32
    ∧ (adderHarness A B ((A + B) % 2 ^ 32) tr m t0).1 = 0
    ∧ (adderHarness A B (expectedOf A B) tr m t0).1 = 0 := by
  have ha : (adderAfterLoop A B tr m t0).top.a = A := by
    simp [adderAfterLoop, adderLoop_zero, adderLoopBody_top, specTick_a, adderBeforeLoop_a]
  have hb : (adderAfterLoop A B tr m t0).top.b = B := by
    simp [adderAfterLoop, adderLoop_zero, adderLoopBody_top, specTick_b, adderBeforeLoop_b]
  have hc : (adderAfterLoop A B tr m t0).top.c = (A + B) % 2 ^ 32 := by
    simp only [adderAfterLoop, adderLoop_zero, adderLoopBody_top]
    rw [specTick_c m _ hadd, adderLoopBody_top, specTick_a, specTick_b, adderBeforeLoop_a,
      adderBeforeLoop_b]
  have hfc : ∀ E, (adderHarness A B E tr m t0).2.top.c = (A + B) % 2 ^ 32 := by
    intro E
    simp [adderHarness, traceClose_top, final_c, hc]
  have hret : ∀ E, (adderHarness A B E tr m t0).1
      = (if (adderHarness A B E tr m t0).2.top.c = E then 0 else 1) := fun _ => rfl
  refine ⟨?_, ?_, ha, hb, hc, hfc _, ?_, ?_⟩
  · rw [adderAfterLoop_log]
    simp only [tickCount, List.append_assoc, tickCount_startup]
    have h : tickCountFrom 0
        ([Event.setA A, Event.setB B] ++ (adderBodyEvents tr t0 ++ adderBodyEvents tr (t0 + 10)))
        = tickCountFrom 0 (adderBodyEvents tr t0 ++ (adderBodyEvents tr (t0 + 10) ++ [])) := by
      simp only [List.append_nil]; rfl
    rw [h, tickCount_adderBody, tickCount_adderBody]
    rfl
  · cases tr <;> rfl
  · rw [hret, hfc]; simp
  · rw [hret, hfc, expectedOf_eq]; simp

/-- Witness of C3: the harness of `adder.cpp`, driving `0xdeadbeef` and
`0x8badf00d` into a combinational adder, returns 0. -/
theorem adder_two_ticks_sum_witness :
    (0xdeadbeef < 2 ^ 32 ∧ 0x8badf00d < 2 ^ 32)
    ∧ (adderHarness 0xdeadbeef 0x8badf00d (expectedOf 0xdeadbeef 0x8badf00d)
        true adderModel 0).1 = 0 :=
  ⟨by decide,
    (adder_two_ticks_sum 0xdeadbeef 0x8badf00d (by decide) (by decide) true adderModel 0
      (fun _ _ _ => rfl)).2.2.2.2.2.2.2⟩

/-- C4: from every starting state with simulated time `t`, one expansion of
`clock_tick` makes exactly these calls in this order: sample at `t` (if tracing
is enabled), advance time by 5, set `sys_clk` to 0, evaluate, sample at `t + 5`
(if tracing is enabled), advance time by 5, set `sys_clk` to 1, evaluate; it
ends with time `t + 10` and `sys_clk = 1` after exactly two evaluations, the
ports and the model state being those of the six steps without the samples. -/
theorem clock_tick_eight_steps (tr : Bool) (m : Vtop σ) (s : Sim σ) :
    (clock_tick tr m s).log
        = s.log
          ++ (if tr then [Event.dump s.time] else [])
          ++ [Event.timeInc 5, Event.setClk 0, Event.eval (s.time + 5) 0]
          ++ (if tr then [Event.dump (s.time + 5)] else [])
          ++ [Event.timeInc 5, Event.setClk 1, Event.eval (s.time + 10) 1]
    ∧ (clock_tick tr m s).time = s.time + 10
    ∧ (clock_tick tr m s).top.sys_clk = 1
    ∧ evalCount (clock_tick tr m s).log = evalCount s.log + 2
    ∧ tickCount (tickEvents tr s.time) = 1
    ∧ (clock_tick tr m s).top
        = (eval m (setClk 1 (timeInc 5 (eval m (setClk 0 (timeInc 5 s)))))).top := by
  refine ⟨?_, clock_tick_time tr m s, ?_, ?_, ?_, ?_⟩
  · rw [clock_tick_log]; simp [tickEvents]
  · rw [clock_tick_top, specTick_clk]
  · rw [clock_tick_log]
    cases tr <;> simp [tickEvents, evalCount, isEval, List.countP_cons]
  · cases tr <;> rfl
  · rw [clock_tick_top]; rfl

/-- C10: with tracing disabled, the body of the clocking loop of the adder
harness and one expansion of `clock_tick` perform the same state transition
from every starting state, the one the spec words describe (`specTick`); hence
`k` iterations of either leave the same final state, with simulated time
advanced by `10 * k`. -/
theorem adder_body_eq_clock_tick (m : Vtop σ) (s : Sim σ) (k : Nat) :
    adderLoopBody false m s = clock_tick false m s
    ∧ clock_tick false m s = specTick m s
    ∧ (adderLoopBody false m)^[k] s = (clock_tick false m)^[k] s
    ∧ ((adderLoopBody false m)^[k] s).time = s.time + 10 * k
    ∧ ((clock_tick false m)^[k] s).time = s.time + 10 * k := by
  have h1 : adderLoopBody false m = clock_tick (σ := σ) false m := by
    funext x
    simp [adderLoopBody, clock_tick, dump_vcd]
  have h2 : ∀ (j : Nat) (x : Sim σ), ((clock_tick false m)^[j] x).time = x.time + 10 * j := by
    intro j
    induction j with
    | zero => intro x; simp
    | succ n ih =>
      intro x
      rw [Function.iterate_succ_apply, ih, clock_tick_time]
      omega
  refine ⟨by rw [h1], ?_, by rw [h1], ?_, h2 k s⟩
  · simp [clock_tick, specTick, dump_vcd]
  · rw [h1]; exact h2 k s

/-- C5: a harness generated from the template whose `main_code` performs `N`
clock ticks (`N = nTicks code`, any `N >= 0`) performs exactly `N + 1` clock
ticks, the `N` driven ones followed by the drain tick, that is `2 (N + 1)` model
evaluations, before `final()` is invoked, and no tick or evaluation after it. -/
theorem template_ticks_before_final (tr : Bool) (m : Vtop σ) (t0 : Nat)
    (code : List MainStmt) (ret : Top σ → Int) :
    beforeFinal (templateLog tr m t0 code ret)
        = startupEvents ++ traceSetupEvents tr ++ codeEvents tr t0 code
            ++ tickEvents tr (t0 + 10 * nTicks code)
    ∧ tickCount (startupEvents ++ traceSetupEvents tr ++ codeEvents tr t0 code) = nTicks code
    ∧ tickCount (beforeFinal (templateLog tr m t0 code ret)) = nTicks code + 1
    ∧ evalCount (beforeFinal (templateLog tr m t0 code ret)) = 2 * (nTicks code + 1)
    ∧ afterFinal (templateLog tr m t0 code ret) = traceCloseEvents tr
    ∧ tickCount (afterFinal (templateLog tr m t0 code ret)) = 0
    ∧ evalCount (afterFinal (templateLog tr m t0 code ret)) = 0 := by
  have hpre := beforeFinal_append _ (traceCloseEvents tr) (template_pre_ne_final tr t0 code)
  have hpost := afterFinal_append _ (traceCloseEvents tr) (template_pre_ne_final tr t0 code)
  have hlog := templateMain_log tr m t0 code ret
  have hb : beforeFinal (templateLog tr m t0 code ret)
      = startupEvents ++ traceSetupEvents tr ++ codeEvents tr t0 code
          ++ tickEvents tr (t0 + 10 * nTicks code) := by
    rw [templateLog, hlog, hpre]
  have ha : afterFinal (templateLog tr m t0 code ret) = traceCloseEvents tr := by
    rw [templateLog, hlog, hpost]
  refine ⟨hb, ?_, ?_, ?_, ha, ?_, ?_⟩
  · have h := tickCount_code tr t0 code []
    simp only [List.append_nil] at h
    simp only [tickCount, List.append_assoc, tickCount_startup, h]
    rfl
  · rw [hb, tickCount_template_pre]
  · rw [hb]
    simp only [evalCount_append, evalCount_startup, evalCount_traceSetup, evalCount_code,
      evalCount_tick]
    omega
  · rw [ha]; cases tr <;> rfl
  · rw [ha]; cases tr <;> rfl

/-- C6 (as stated) fails: in a run of the adder harness (tracing enabled, a
combinational adder as model) the calls before `final()` hold 2 clock ticks and
4 evaluations, not 3 and 6. -/
theorem adder_teardown_tick_absent :
    tickCount (beforeFinal (adderLog true adderModel 0)) = 2
    ∧ evalCount (beforeFinal (adderLog true adderModel 0)) = 4
    ∧ ¬ (tickCount (beforeFinal (adderLog true adderModel 0)) = 3
        ∧ evalCount (beforeFinal (adderLog true adderModel 0)) = 6) := by
  rw [adderLog, adderMain, adderHarness_log]
  decide

/-- C6 (as amended): the adder harness performs no teardown tick; after the
`N = 2` ticks of its clocking loop it invokes `final()` directly, so that it
performs 2 ticks (4 model evaluations) in total before finalizing and none
after. -/
theorem adder_ticks_before_final (tr : Bool) (m : Vtop σ) (t0 : Nat) :
    beforeFinal (adderLog tr m t0)
        = startupEvents ++ traceSetupEvents tr ++ [Event.setA 0xdeadbeef, Event.setB 0x8badf00d]
            ++ adderBodyEvents tr t0 ++ adderBodyEvents tr (t0 + 10)
    ∧ tickCount (beforeFinal (adderLog tr m t0)) = 2
    ∧ evalCount (beforeFinal (adderLog tr m t0)) = 4
    ∧ afterFinal (adderLog tr m t0) = traceCloseEvents tr
    ∧ tickCount (afterFinal (adderLog tr m t0)) = 0
    ∧ evalCount (afterFinal (adderLog tr m t0)) = 0 := by
  have hne := adder_pre_ne_final 0xdeadbeef 0x8badf00d tr t0
  have hb : beforeFinal (adderLog tr m t0)
      = startupEvents ++ traceSetupEvents tr ++ [Event.setA 0xdeadbeef, Event.setB 0x8badf00d]
          ++ adderBodyEvents tr t0 ++ adderBodyEvents tr (t0 + 10) := by
    rw [adderLog, adderMain, adderHarness_log, beforeFinal_append _ _ hne]
  have ha : afterFinal (adderLog tr m t0) = traceCloseEvents tr := by
    rw [adderLog, adderMain, adderHarness_log, afterFinal_append _ _ hne]
  refine ⟨hb, ?_, ?_, ha, ?_, ?_⟩
  · rw [hb, tickCount_adder_pre]
  · rw [hb]; cases tr <;> rfl
  · rw [ha]; cases tr <;> rfl
  · rw [ha]; cases tr <;> rfl

/-- C7: in both harnesses the number of trace samples recorded in a run is
exactly twice the number `M` of clock ticks performed when tracing is enabled
and exactly 0 when it is disabled (`M = nTicks code + 1` in the template, and
`M = 2` in the adder harness). -/
theorem samples_twice_ticks (tr : Bool) (m : Vtop σ) (t0 : Nat) (code : List MainStmt)
    (ret : Top σ → Int) :
    dumpCount (templateLog tr m t0 code ret)
        = (if tr then 2 * tickCount (templateLog tr m t0 code ret) else 0)
    ∧ tickCount (templateLog tr m t0 code ret) = nTicks code + 1
    ∧ dumpCount (adderLog tr m t0) = (if tr then 2 * tickCount (adderLog tr m t0) else 0)
    ∧ tickCount (adderLog tr m t0) = 2 := by
  refine ⟨?_, tickCount_templateLog tr m t0 code ret, ?_, ?_⟩
  · rw [tickCount_templateLog, dumpCount_templateLog]
  · rw [adderLog, adderMain, tickCount_adderHarness, dumpCount_adderHarness]
  · rw [adderLog, adderMain, tickCount_adderHarness]

/-- C8: in every run of either harness with tracing enabled, the recorder is
attached and opened before the first evaluation and the first sample, and it is
closed exactly once, after the last evaluation, the last sample and `final()`,
as the last call of the run; the calls of a run do not depend on the value the
exit code is computed from, so this holds alike when the run exits with 0 and
with 1. -/
theorem trace_recorder_lifecycle (m m' : Vtop σ) (t0 : Nat) (code : List MainStmt)
    (ret ret' : Top σ → Int) (A B E E' : Nat) :
    (∃ mid, templateLog true m t0 code ret
          = [Event.mkdir, Event.commandArgs, Event.traceEverOn, Event.trace 99, Event.openTrace]
            ++ mid ++ [Event.final, Event.close]
        ∧ (∀ e ∈ mid, isDriveCall e = true)
        ∧ evalCount mid = evalCount (templateLog true m t0 code ret)
        ∧ dumpCount mid = dumpCount (templateLog true m t0 code ret))
    ∧ List.count Event.openTrace (templateLog true m t0 code ret) = 1
    ∧ List.count Event.close (templateLog true m t0 code ret) = 1
    ∧ templateLog true m t0 code ret = templateLog true m' t0 code ret'
    ∧ (∃ mid, (adderHarness A B E true m t0).2.log
          = [Event.mkdir, Event.commandArgs, Event.traceEverOn, Event.trace 99, Event.openTrace]
            ++ mid ++ [Event.final, Event.close]
        ∧ (∀ e ∈ mid, isDriveCall e = true)
        ∧ evalCount mid = evalCount (adderHarness A B E true m t0).2.log
        ∧ dumpCount mid = dumpCount (adderHarness A B E true m t0).2.log)
    ∧ List.count Event.openTrace (adderHarness A B E true m t0).2.log = 1
    ∧ List.count Event.close (adderHarness A B E true m t0).2.log = 1
    ∧ (adderHarness A B E true m t0).2.log = (adderHarness A B E' true m' t0).2.log := by
  have hmidT : ∀ e ∈ codeEvents true t0 code ++ tickEvents true (t0 + 10 * nTicks code),
      isDriveCall e = true := by
    intro e he
    rcases List.mem_append.mp he with he | he
    · exact codeEvents_drive true t0 code e he
    · exact tickEvents_drive true _ e he
  have hmidA : ∀ e ∈ [Event.setA A, Event.setB B] ++ adderBodyEvents true t0
      ++ adderBodyEvents true (t0 + 10), isDriveCall e = true := by
    simp [adderBodyEvents, isDriveCall]
  have hT : templateLog true m t0 code ret
      = [Event.mkdir, Event.commandArgs, Event.traceEverOn, Event.trace 99, Event.openTrace]
        ++ (codeEvents true t0 code ++ tickEvents true (t0 + 10 * nTicks code))
        ++ [Event.final, Event.close] := by
    rw [templateLog, templateMain_log]
    simp [startupEvents, traceSetupEvents, traceCloseEvents]
  have hA : (adderHarness A B E true m t0).2.log
      = [Event.mkdir, Event.commandArgs, Event.traceEverOn, Event.trace 99, Event.openTrace]
        ++ ([Event.setA A, Event.setB B] ++ adderBodyEvents true t0
          ++ adderBodyEvents true (t0 + 10))
        ++ [Event.final, Event.close] := by
    rw [adderHarness_log]
    simp [startupEvents, traceSetupEvents, traceCloseEvents]
  refine ⟨⟨_, hT, hmidT, ?_, ?_⟩, ?_, ?_, ?_, ⟨_, hA, hmidA, ?_, ?_⟩, ?_, ?_, ?_⟩
  · rw [hT]; simp [evalCount, isEval]
  · rw [hT]; simp [dumpCount, isDump]
  · rw [hT, List.count_append, List.count_append, count_open_drive _ hmidT]; rfl
  · rw [hT, List.count_append, List.count_append, count_close_drive _ hmidT]; rfl
  · simp only [templateLog, templateMain_log]
  · rw [hA]; simp [evalCount, isEval]
  · rw [hA]; simp [dumpCount, isDump]
  · rw [hA, List.count_append, List.count_append, count_open_drive _ hmidA]; rfl
  · rw [hA, List.count_append, List.count_append, count_close_drive _ hmidA]; rfl
  · simp only [adderHarness_log]

/-- C9 (as stated) fails: in the run of the template harness with tracing
enabled and an empty `main_code`, the last evaluation (at time 10) is followed
by `final()` and `close()` without a sample. -/
theorem template_last_eval_unsampled :
    everyEvalSampled (templateLog true (stubModel 0) 0 [] (fun _ => 0)) = false := by
  decide

/-- C9 (as amended): with tracing enabled, in every run of the adder harness
each evaluation is followed by a sample taken at that evaluation's simulated
time before the next evaluation, `final()` or `close()`; in every run of the
template harness this holds for every evaluation but the last one, the second
evaluation of the teardown tick, which is followed by `final()` and `close()`
with no sample in between. -/
theorem evals_sampled_but_last (m : Vtop σ) (t0 : Nat) (code : List MainStmt)
    (ret : Top σ → Int) (A B E : Nat) :
    everyEvalSampled (adderHarness A B E true m t0).2.log = true
    ∧ (∃ pre, templateLog true m t0 code ret
          = pre ++ [Event.eval (t0 + 10 * (nTicks code + 1)) 1, Event.final, Event.close]
        ∧ everyEvalSampled pre = true
        ∧ evalCount pre + 1 = evalCount (templateLog true m t0 code ret))
    ∧ everyEvalSampled (templateLog true m t0 code ret) = false := by
  have hT : templateLog true m t0 code ret
      = (startupEvents ++ traceSetupEvents true ++ codeEvents true t0 code
          ++ [Event.dump (t0 + 10 * nTicks code), Event.timeInc 5, Event.setClk 0,
              Event.eval (t0 + 10 * nTicks code + 5) 0, Event.dump (t0 + 10 * nTicks code + 5),
              Event.timeInc 5, Event.setClk 1])
        ++ [Event.eval (t0 + 10 * (nTicks code + 1)) 1, Event.final, Event.close] := by
    rw [templateLog, templateMain_log]
    have e : t0 + 10 * nTicks code + 10 = t0 + 10 * (nTicks code + 1) := by omega
    simp [tickEvents, traceCloseEvents, e]
  refine ⟨?_, ⟨_, hT, ?_, ?_⟩, ?_⟩
  · rw [adderHarness_log]
    simp [startupEvents, traceSetupEvents, traceCloseEvents, adderBodyEvents, everyEvalSampled,
      sampledBeforeNext]
  · have h : ∀ l, everyEvalSampled (startupEvents ++ traceSetupEvents true ++ l)
        = everyEvalSampled l := fun _ => rfl
    rw [List.append_assoc, h, everyEvalSampled_code]
    by_cases hn : nTicks code = 0
    · simp [hn, everyEvalSampled, sampledBeforeNext]
    · simp [hn, everyEvalSampled, sampledBeforeNext]
  · rw [hT]; simp [evalCount, isEval, List.countP_cons]; omega
  · have h : ∀ l, everyEvalSampled (startupEvents ++ traceSetupEvents true ++ l)
        = everyEvalSampled l := fun _ => rfl
    rw [templateLog, templateMain_log]
    simp only [List.append_assoc]
    rw [← List.append_assoc, h, everyEvalSampled_code, everyEvalSampled_tick]
    by_cases hn : nTicks code = 0
    · simp [hn, traceCloseEvents, sampledBeforeNext]
    · simp [hn, traceCloseEvents, sampledBeforeNext]

end Hmmc
